import Mathlib

/-!
Verification development for the LinearFitSearch repository (src/main.cpp).

The C++ code is embedded shallowly:

* `size_t` values become `Nat`; every comparison and update of the C++
  search loops is mirrored literally.
* The C++ `struct TestResults` leaves its `index` field uninitialized on
  several return paths; the embedding gives the field type `Option Nat`,
  with `none` standing for "never assigned".
* Loops become structurally recursive functions over an explicit fuel
  argument (the fuel is instantiated with `values.length` at the top-level
  entry points, and theorems below show this fuel never runs out), so all
  search functions are computable and reduce by `decide`.
* Each loop additionally returns a trace of its iterations (bracket state
  and probed index per iteration) so that statements about probe choice,
  bracket shrinking and element reads can be expressed.
* The single float computation, the line-fit probe
  `size_t(0.5f + (searchValue - b) / m)` with `m`, `b` recomputed from the
  current bracket `(minIndex, maxIndex, min, max)`, is abstracted as an
  oracle parameter `lf : Nat -> Nat -> Nat -> Nat -> Nat` receiving exactly
  the quantities the C++ formula reads.  The code clamps the probe into the
  bracket right after computing it, so every property claimed about the
  searches holds for an arbitrary oracle; theorems quantify over `lf`.
  `ratLineGuess` below is the exact-rational version of the formula, used
  to instantiate the oracle in concrete runs.
* The float computations of the sequence generators (`MakeList_Linear`,
  `MakeList_Log`) are modelled in exact arithmetic (`ℚ` resp. `ℝ` with
  `Real.log`), with `size_t(y)` for nonnegative `y` modelled as floor, and
  a division whose divisor is exactly zero modelled as `none`.
-/

namespace LinearFitSearch

/-- Result of one search, struct TestResults (main.cpp:17-22).  The C++
struct never initializes `index`; `none` models the field while it has not
been assigned. -/
structure TestResults where
  found : Bool
  index : Option Nat
  guesses : Nat
  deriving DecidableEq, Repr

/-- Clamp (main.cpp:41-50), instantiated at size_t. -/
def Clamp (min max value : Nat) : Nat :=
  if value < min then min
  else if value > max then max
  else value

/-- Loop of TestList_LinearSearch (main.cpp:141-167).  `idx` is the running
cursor `ret.index`, `g` the running `ret.guesses`; the list argument is the
unscanned suffix `values[idx..]`.  Also returns the list of indices at which
the sequence was read. -/
def linLoop (searchValue : Nat) : List Nat → Nat → Nat → TestResults × List Nat
  | [], idx, g => (⟨false, some idx, g⟩, [])
  | value :: rest, idx, g =>
    if value = searchValue then (⟨true, some idx, g + 1⟩, [idx])
    else if value > searchValue then (⟨false, some idx, g + 1⟩, [idx])
    else
      let p := linLoop searchValue rest (idx + 1) (g + 1)
      (p.1, idx :: p.2)

/-- TestList_LinearSearch (main.cpp:141-167). -/
def TestList_LinearSearch (values : List Nat) (searchValue : Nat) : TestResults :=
  (linLoop searchValue values 0 0).1

/-- Indices read from the sequence by TestList_LinearSearch. -/
def linearReads (values : List Nat) (searchValue : Nat) : List Nat :=
  (linLoop searchValue values 0 0).2

/-- One iteration of the binary-search loop: bracket on entry and the index
probed. -/
structure BinRec where
  minIndex : Nat
  maxIndex : Nat
  guessIndex : Nat
  deriving DecidableEq, Repr

/-- Loop of TestList_BinarySearch (main.cpp:347-391), fuelled.  The branch
structure mirrors the source: equality returns found; `guess < searchValue`
sets `minIndex = guessIndex + 1`; otherwise the underflow guard
(main.cpp:377-379) returns not-found when `guessIndex == 0`, else
`maxIndex = guessIndex - 1`; after either update, `minIndex > maxIndex`
returns not-found. -/
def binLoopF (values : List Nat) (searchValue : Nat) :
    Nat → Nat → Nat → Nat → Option TestResults × List BinRec
  | 0, _, _, _ => (none, [])
  | fuel + 1, minIndex, maxIndex, guesses =>
    let guessIndex := (minIndex + maxIndex) / 2
    let guess := values.getD guessIndex 0
    let rc : BinRec := ⟨minIndex, maxIndex, guessIndex⟩
    if guess = searchValue then (some ⟨true, some guessIndex, guesses + 1⟩, [rc])
    else if guess < searchValue then
      if guessIndex + 1 > maxIndex then (some ⟨false, none, guesses + 1⟩, [rc])
      else
        let p := binLoopF values searchValue fuel (guessIndex + 1) maxIndex (guesses + 1)
        (p.1, rc :: p.2)
    else
      if guessIndex = 0 then (some ⟨false, none, guesses + 1⟩, [rc])
      else if minIndex > guessIndex - 1 then (some ⟨false, none, guesses + 1⟩, [rc])
      else
        let p := binLoopF values searchValue fuel minIndex (guessIndex - 1) (guesses + 1)
        (p.1, rc :: p.2)

/-- TestList_BinarySearch (main.cpp:347-391).  Fuel `values.length` is
always sufficient (`binLoopF_isSome` below). -/
def TestList_BinarySearch (values : List Nat) (searchValue : Nat) : TestResults :=
  ((binLoopF values searchValue values.length 0 (values.length - 1) 0).1).getD ⟨false, none, 0⟩

/-- Iteration trace of TestList_BinarySearch. -/
def binTrace (values : List Nat) (searchValue : Nat) : List BinRec :=
  (binLoopF values searchValue values.length 0 (values.length - 1) 0).2

/-- Indices read from the sequence by TestList_BinarySearch. -/
def binReads (values : List Nat) (searchValue : Nat) : List Nat :=
  (binTrace values searchValue).map (fun r => r.guessIndex)

/-- One iteration of the bracketing loop shared by TestList_LineFit and
TestList_HybridSearch: bracket state on entry, the raw (pre-clamp) probe
and the probed index. -/
structure IterRec where
  minIndex : Nat
  maxIndex : Nat
  minVal : Nat
  maxVal : Nat
  guessRaw : Nat
  guessIndex : Nat
  deriving DecidableEq, Repr

/-- Loop shared by TestList_LineFit (main.cpp:216-254) and
TestList_HybridSearch (main.cpp:301-342), fuelled.  `k` is the running
`ret.guesses` (0 on first entry); `raw k minIndex maxIndex minVal maxVal`
abstracts the probe-index computation of iteration `k` before clamping.
The body mirrors the source: increment guesses, clamp the probe into
`[minIndex+1, maxIndex-1]`, read, return found on equality, otherwise move
the matching bracket end to the probed index, and return not-found once
`minIndex + 1 >= maxIndex`. -/
def bracketLoopF (values : List Nat) (searchValue : Nat)
    (raw : Nat → Nat → Nat → Nat → Nat → Nat) :
    Nat → Nat → Nat → Nat → Nat → Nat → Option TestResults × List IterRec
  | 0, _, _, _, _, _ => (none, [])
  | fuel + 1, k, minIndex, maxIndex, minVal, maxVal =>
    let guessRaw := raw k minIndex maxIndex minVal maxVal
    let guessIndex := Clamp (minIndex + 1) (maxIndex - 1) guessRaw
    let guess := values.getD guessIndex 0
    let rc : IterRec := ⟨minIndex, maxIndex, minVal, maxVal, guessRaw, guessIndex⟩
    if guess = searchValue then (some ⟨true, some guessIndex, k + 1⟩, [rc])
    else if guess < searchValue then
      if guessIndex + 1 ≥ maxIndex then (some ⟨false, none, k + 1⟩, [rc])
      else
        let p := bracketLoopF values searchValue raw fuel (k + 1) guessIndex maxIndex guess maxVal
        (p.1, rc :: p.2)
    else
      if minIndex + 1 ≥ guessIndex then (some ⟨false, none, k + 1⟩, [rc])
      else
        let p := bracketLoopF values searchValue raw fuel (k + 1) minIndex guessIndex minVal guess
        (p.1, rc :: p.2)

/-- Entry shared verbatim by TestList_LineFit (main.cpp:182-214) and
TestList_HybridSearch (main.cpp:266-298): read both endpoints, short
circuit when the target is out of range or equals an endpoint value, and
otherwise run the bracket loop with probe oracle `raw`. -/
def coreF (values : List Nat) (searchValue : Nat)
    (raw : Nat → Nat → Nat → Nat → Nat → Nat) : Option TestResults × List IterRec :=
  let maxIndex := values.length - 1
  let minVal := values.getD 0 0
  let maxVal := values.getD maxIndex 0
  if searchValue < minVal ∨ searchValue > maxVal then (some ⟨false, none, 0⟩, [])
  else if searchValue = minVal then (some ⟨true, some 0, 0⟩, [])
  else if searchValue = maxVal then (some ⟨true, some maxIndex, 0⟩, [])
  else
    bracketLoopF values searchValue raw values.length 0 0 maxIndex minVal maxVal

/-- TestList_LineFit (main.cpp:169-257) up to the choice of the float probe
formula, which enters as the oracle `lf` (see the file comment); the
iteration number is ignored, the line is refit from the bracket state each
iteration. -/
def lineFitCoreF (values : List Nat) (searchValue : Nat)
    (lf : Nat → Nat → Nat → Nat → Nat) : Option TestResults × List IterRec :=
  coreF values searchValue (fun _ a b c d => lf a b c d)

/-- TestList_LineFit result. -/
def TestList_LineFit (values : List Nat) (searchValue : Nat)
    (lf : Nat → Nat → Nat → Nat → Nat) : TestResults :=
  ((lineFitCoreF values searchValue lf).1).getD ⟨false, none, 0⟩

/-- Iteration trace of TestList_LineFit. -/
def lineFitTrace (values : List Nat) (searchValue : Nat)
    (lf : Nat → Nat → Nat → Nat → Nat) : List IterRec :=
  (lineFitCoreF values searchValue lf).2

/-- Indices read from the sequence by TestList_LineFit: the two endpoint
reads (main.cpp:185-186) followed by one read per loop iteration. -/
def lineFitReads (values : List Nat) (searchValue : Nat)
    (lf : Nat → Nat → Nat → Nat → Nat) : List Nat :=
  0 :: (values.length - 1) :: (lineFitTrace values searchValue lf).map (fun r => r.guessIndex)

/-- TestList_LineFitBlind (main.cpp:393-400): the TestList_LineFit result
with the guess count incremented by 2. -/
def TestList_LineFitBlind (values : List Nat) (searchValue : Nat)
    (lf : Nat → Nat → Nat → Nat → Nat) : TestResults :=
  let r := TestList_LineFit values searchValue lf
  ⟨r.found, r.index, r.guesses + 2⟩

/-- Indices read by TestList_LineFitBlind: it performs exactly the reads of
the TestList_LineFit call it delegates to (main.cpp:397). -/
def lineFitBlindReads (values : List Nat) (searchValue : Nat)
    (lf : Nat → Nat → Nat → Nat → Nat) : List Nat :=
  lineFitReads values searchValue lf

/-- TestList_HybridSearch (main.cpp:259-345).  Identical to the line-fit
core except for the probe choice: `doBinaryStep` starts false and is
toggled unconditionally at the end of every iteration (main.cpp:300,341),
so iteration `k` (0-based, `k` = guesses already made) uses the bisection
probe `(minIndex + maxIndex) / 2` exactly when `k` is odd, and the
line-fit oracle otherwise. -/
def hybridCoreF (values : List Nat) (searchValue : Nat)
    (lf : Nat → Nat → Nat → Nat → Nat) : Option TestResults × List IterRec :=
  coreF values searchValue
    (fun k a b c d => if k % 2 = 1 then (a + b) / 2 else lf a b c d)

/-- TestList_HybridSearch result. -/
def TestList_HybridSearch (values : List Nat) (searchValue : Nat)
    (lf : Nat → Nat → Nat → Nat → Nat) : TestResults :=
  ((hybridCoreF values searchValue lf).1).getD ⟨false, none, 0⟩

/-- Iteration trace of TestList_HybridSearch. -/
def hybridTrace (values : List Nat) (searchValue : Nat)
    (lf : Nat → Nat → Nat → Nat → Nat) : List IterRec :=
  (hybridCoreF values searchValue lf).2

/-- Indices read from the sequence by TestList_HybridSearch. -/
def hybridReads (values : List Nat) (searchValue : Nat)
    (lf : Nat → Nat → Nat → Nat → Nat) : List Nat :=
  0 :: (values.length - 1) :: (hybridTrace values searchValue lf).map (fun r => r.guessIndex)

/-- Exact-arithmetic version of the float line-fit probe
`size_t(0.5f + (float(searchValue) - b) / m)` with
`m = (max - min) / (maxIndex - minIndex)` and `b = min - m * minIndex`
(main.cpp:213-214,220,252-253).  In exact arithmetic
`0.5 + (searchValue - b) / m
  = minIndex + (den + 2 * num * run) / (2 * den)`
with `num = searchValue - minVal`, `den = maxVal - minVal`,
`run = maxIndex - minIndex`; at every bracket state the loops reach,
`den > 0` and the value is nonnegative, so the `size_t` truncation is the
floor, computed here by integer floor division.  Used to instantiate the
probe oracle on concrete runs. -/
def ratLineGuess (searchValue minIndex maxIndex minVal maxVal : Nat) : Nat :=
  let num : Int := (searchValue : Int) - (minVal : Int)
  let den : Int := (maxVal : Int) - (minVal : Int)
  let run : Int := (maxIndex : Int) - (minIndex : Int)
  if den = 0 then 0
  else ((minIndex : Int) + Int.fdiv (den + 2 * num * run) (2 * den)).toNat

/-- Value of the sequence at a possibly-unassigned index, modelling the C++
read `values[result.index]`: an unassigned index reads junk, modelled as
position 0. -/
def valueAtOpt (values : List Nat) (idx : Option Nat) : Nat :=
  values.getD (idx.getD 0) 0

/-- VerifyResults (main.cpp:404-417): recompute ground truth with
TestList_LinearSearch and flag (as `true`) a verification failure. -/
def VerifyResults (values : List Nat) (searchValue : Nat) (result : TestResults) : Bool :=
  let actualResult := TestList_LinearSearch values searchValue
  if result.found ≠ actualResult.found then true
  else if result.found = true ∧ result.index ≠ actualResult.index ∧
      valueAtOpt values result.index ≠ valueAtOpt values actualResult.index then true
  else false

/-- Value bound c_maxValue (main.cpp:9). -/
def c_maxValue : Nat := 2000

/-- Insertion step of the explicit sort pass (`std::sort` is modelled as
insertion sort; only its specification matters). -/
def insertSorted (x : Nat) : List Nat → List Nat
  | [] => [x]
  | y :: ys => if x ≤ y then x :: y :: ys else y :: insertSorted x ys

/-- The sort pass each generator performs after filling the buffer. -/
def sortList (l : List Nat) : List Nat :=
  l.foldr insertSorted []

/-- MakeList_Linear (main.cpp:74-86).  The per-index computation is
`float x = float(index) / float(count - 1); y = x * c_maxValue;
values[index] = size_t(y)`, modelled in exact rational arithmetic with
`size_t` conversion as floor.  The divisor `float(count - 1)` is exactly
zero iff `count = 1` (for `count = 0` the loop body never runs); in that
case the source computes `0.0f / 0.0f = NaN` and stores `size_t(NaN)`,
which is undefined — modelled as `none`. -/
def MakeList_Linear (count : Nat) : Option (List Nat) :=
  if count = 1 then none
  else
    some (sortList ((List.range count).map
      (fun index => (⌊(index : ℚ) / ((count : ℚ) - 1) * (c_maxValue : ℚ)⌋).toNat)))

/-- Per-index value of MakeList_Log (main.cpp:122-137):
`maxValue = log(float(count)); x = float(index + 1);
y = log(x + 1) / maxValue; y *= c_maxValue; values[index] = size_t(y)`,
modelled with the exact real logarithm and `size_t` conversion of a
nonnegative float as floor. -/
noncomputable def logVal (count index : Nat) : Nat :=
  (⌊Real.log ((index : ℝ) + 1 + 1) / Real.log (count : ℝ) * (c_maxValue : ℝ)⌋).toNat

/-- MakeList_Log (main.cpp:122-137): fill with `logVal`, then sort. -/
noncomputable def MakeList_Log (count : Nat) : List Nat :=
  sortList ((List.range count).map (logVal count))

/-- Modelled from the spec wording of claim C7: value at index `i` equals
`round(V * log(i + 2) / log(N + 1))`.  This definition follows the spec's
words, for comparison against `MakeList_Log` from the source. -/
noncomputable def logSpecVal (count index : Nat) : Nat :=
  (round ((c_maxValue : ℝ) * Real.log ((index : ℝ) + 2) / Real.log ((count : ℝ) + 1))).toNat

/-- Sorted lists are monotone under positional read. -/
lemma sorted_getD_mono {values : List Nat} (h : List.Sorted (· ≤ ·) values)
    {i j : Nat} (hij : i ≤ j) (hj : j < values.length) :
    values.getD i 0 ≤ values.getD j 0 := by
  rcases eq_or_lt_of_le hij with rfl | hlt
  · exact le_refl _
  · have hi : i < values.length := lt_trans hlt hj
    rw [List.getD_eq_getElem _ _ hi, List.getD_eq_getElem _ _ hj]
    exact List.pairwise_iff_get.mp h ⟨i, hi⟩ ⟨j, hj⟩ hlt

/-- Membership expressed through positional reads. -/
lemma getD_of_mem {values : List Nat} {sv : Nat} (h : sv ∈ values) :
    ∃ j, j < values.length ∧ values.getD j 0 = sv := by
  obtain ⟨⟨j, hj⟩, rfl⟩ := List.mem_iff_get.mp h
  exact ⟨j, hj, by rw [List.getD_eq_getElem _ _ hj]; rfl⟩

/-- Case analysis for Clamp. -/
lemma Clamp_cases (min max v : Nat) :
    Clamp min max v = min ∨ Clamp min max v = max ∨
      (min ≤ v ∧ v ≤ max ∧ Clamp min max v = v) := by
  unfold Clamp; split_ifs <;> omega

/-- Clamp lands inside a well-formed range. -/
lemma Clamp_mem_of_le {min max : Nat} (h : min ≤ max) (v : Nat) :
    min ≤ Clamp min max v ∧ Clamp min max v ≤ max := by
  unfold Clamp; split_ifs <;> omega

/-- Linear scan on a sorted list finds any present target, at a position
carrying the target value. -/
lemma linLoop_hit (sv : Nat) :
    ∀ (l : List Nat), List.Sorted (· ≤ ·) l → sv ∈ l → ∀ idx g,
      (linLoop sv l idx g).1.found = true ∧
        ∃ j, j < l.length ∧ (linLoop sv l idx g).1.index = some (idx + j) ∧
          l.getD j 0 = sv := by
  intro l
  induction l with
  | nil => intro _ hmem; exact absurd hmem (List.not_mem_nil sv)
  | cons v rest ih =>
    intro hsort hmem idx g
    by_cases hv : v = sv
    · refine ⟨by simp [linLoop, hv], 0, by simp, ?_, by simpa using hv⟩
      simp [linLoop, hv]
    · have hmem' : sv ∈ rest := by
        rcases List.mem_cons.mp hmem with h | h
        · exact absurd h.symm hv
        · exact h
      have hle : v ≤ sv := (List.sorted_cons.mp hsort).1 sv hmem'
      have hgt : ¬ v > sv := by omega
      obtain ⟨hf, j', hj', hidx, hval⟩ :=
        ih (List.sorted_cons.mp hsort).2 hmem' (idx + 1) (g + 1)
      refine ⟨?_, j' + 1, by simp; omega, ?_, by simpa using hval⟩
      · simp only [linLoop, if_neg hv, if_neg hgt]
        exact hf
      · simp only [linLoop, if_neg hv, if_neg hgt]
        rw [hidx]
        congr 1
        omega

/-- Every index the linear scan reads lies in `[idx, idx + l.length)`. -/
lemma linLoop_reads (sv : Nat) :
    ∀ (l : List Nat) (idx g i : Nat), i ∈ (linLoop sv l idx g).2 →
      idx ≤ i ∧ i < idx + l.length := by
  intro l
  induction l with
  | nil => intro idx g i h; simp [linLoop] at h
  | cons v rest ih =>
    intro idx g i h
    simp only [List.length_cons]
    by_cases hv : v = sv
    · simp [linLoop, hv] at h
      omega
    · by_cases hgt : v > sv
      · simp [linLoop, hv, hgt] at h
        omega
      · simp only [linLoop, if_neg hv, if_neg hgt, List.mem_cons] at h
        rcases h with rfl | h
        · omega
        · have := ih (idx + 1) (g + 1) i h
          omega

/-- Shape of a not-found linear-scan result: the index is the cursor where
scanning stopped, which is either one past the end of the scanned range or
the first read position whose value exceeds the target. -/
lemma linLoop_notFound (sv : Nat) :
    ∀ (l : List Nat) (idx g : Nat), (linLoop sv l idx g).1.found = false →
      ∃ c, (linLoop sv l idx g).1.index = some c ∧
        (c = idx + l.length ∨
          (idx ≤ c ∧ c < idx + l.length ∧
            (linLoop sv l idx g).2.getLast? = some c ∧ l.getD (c - idx) 0 > sv)) := by
  intro l
  induction l with
  | nil => intro idx g _; exact ⟨idx, by simp [linLoop], Or.inl (by simp)⟩
  | cons v rest ih =>
    intro idx g hnf
    by_cases hv : v = sv
    · simp [linLoop, hv] at hnf
    · by_cases hgt : v > sv
      · refine ⟨idx, by simp [linLoop, hv, hgt],
          Or.inr ⟨le_refl _, by simp only [List.length_cons]; omega, ?_, ?_⟩⟩
        · simp [linLoop, hv, hgt]
        · simpa using hgt
      · simp only [linLoop, if_neg hv, if_neg hgt] at hnf ⊢
        obtain ⟨c, hc, hor⟩ := ih (idx + 1) (g + 1) hnf
        refine ⟨c, hc, ?_⟩
        rcases hor with h | ⟨h1, h2, h3, h4⟩
        · exact Or.inl (by simp; omega)
        · refine Or.inr ⟨by omega, by simp; omega, ?_, ?_⟩
          · have hne : (linLoop sv rest (idx + 1) (g + 1)).2 ≠ [] := by
              intro hemp; rw [hemp] at h3; simp at h3
            obtain ⟨x, xs, hxs⟩ := List.exists_cons_of_ne_nil hne
            rw [hxs] at h3 ⊢
            simpa using h3
          · have : c - idx = (c - (idx + 1)) + 1 := by omega
            rw [this, List.getD_cons_succ]
            exact h4

/-- Relation holding between the entry states of consecutive binary-search
iterations: the bracket was updated either by `minIndex = guessIndex + 1`
or, with `guessIndex >= 1` secured by the underflow guard, by
`maxIndex = guessIndex - 1` (exact subtraction). -/
def binStepR (r r' : BinRec) : Prop :=
  (r'.maxIndex = r.maxIndex ∧ r'.minIndex = r.guessIndex + 1) ∨
    (r'.minIndex = r.minIndex ∧ 1 ≤ r.guessIndex ∧ r'.maxIndex = r.guessIndex - 1)

/-- A terminated binary search either found the target at an index holding
the target value, or reports not-found with the index field unassigned. -/
lemma binLoopF_some_shape (values : List Nat) (sv : Nat) :
    ∀ fuel mn mx g r, (binLoopF values sv fuel mn mx g).1 = some r →
      (r.found = true ∧ ∃ i, r.index = some i ∧ values.getD i 0 = sv) ∨
      (r.found = false ∧ r.index = none) := by
  intro fuel
  induction fuel with
  | zero => intro mn mx g r h; simp [binLoopF] at h
  | succ fuel ih =>
    intro mn mx g r h
    simp only [binLoopF] at h
    split_ifs at h with h1 h2 h3 h4 h5
    · simp at h
      exact Or.inl ⟨by rw [← h], (mn + mx) / 2, by rw [← h], h1⟩
    · simp at h
      exact Or.inr ⟨by rw [← h], by rw [← h]⟩
    · exact ih _ _ _ _ h
    · simp at h
      exact Or.inr ⟨by rw [← h], by rw [← h]⟩
    · simp at h
      exact Or.inr ⟨by rw [← h], by rw [← h]⟩
    · exact ih _ _ _ _ h

/-- On a sorted list, binary search with a target present in the current
bracket and enough fuel succeeds, at an in-bounds index holding the
target. -/
lemma binLoopF_hit (values : List Nat) (sv : Nat)
    (hsort : List.Sorted (· ≤ ·) values) :
    ∀ fuel mn mx g, mx < values.length →
      (∃ j, mn ≤ j ∧ j ≤ mx ∧ values.getD j 0 = sv) →
      mx + 1 - mn ≤ fuel →
      ∃ r, (binLoopF values sv fuel mn mx g).1 = some r ∧ r.found = true ∧
        ∃ i, i < values.length ∧ r.index = some i ∧ values.getD i 0 = sv := by
  intro fuel
  induction fuel with
  | zero =>
    intro mn mx g hmx hj hfuel
    obtain ⟨j, hj1, hj2, _⟩ := hj
    omega
  | succ fuel ih =>
    intro mn mx g hmx hj hfuel
    obtain ⟨j, hj1, hj2, hj3⟩ := hj
    have hjlen : j < values.length := lt_of_le_of_lt hj2 hmx
    have hgmx : (mn + mx) / 2 ≤ mx := by omega
    have hgmn : mn ≤ (mn + mx) / 2 := by omega
    have hglen : (mn + mx) / 2 < values.length := lt_of_le_of_lt hgmx hmx
    by_cases he : values.getD ((mn + mx) / 2) 0 = sv
    · refine ⟨⟨true, some ((mn + mx) / 2), g + 1⟩, ?_, rfl, (mn + mx) / 2, hglen, rfl, he⟩
      simp only [binLoopF, if_pos he]
    · by_cases hlt : values.getD ((mn + mx) / 2) 0 < sv
      · have hjgt : (mn + mx) / 2 < j := by
          by_contra hc
          have := sorted_getD_mono hsort (Nat.le_of_not_lt hc) hglen
          omega
        have hnx : ¬ ((mn + mx) / 2 + 1 > mx) := by omega
        obtain ⟨r, hr, hrf, hri⟩ :=
          ih ((mn + mx) / 2 + 1) mx (g + 1) hmx ⟨j, by omega, hj2, hj3⟩ (by omega)
        refine ⟨r, ?_, hrf, hri⟩
        simp only [binLoopF, if_neg he, if_pos hlt, if_neg hnx]
        exact hr
      · have hgt : sv < values.getD ((mn + mx) / 2) 0 := by omega
        have hjlt : j < (mn + mx) / 2 := by
          by_contra hc
          have := sorted_getD_mono hsort (Nat.le_of_not_lt hc) hjlen
          omega
        have hnz : ¬ ((mn + mx) / 2 = 0) := by omega
        have hnm : ¬ (mn > (mn + mx) / 2 - 1) := by omega
        obtain ⟨r, hr, hrf, hri⟩ :=
          ih mn ((mn + mx) / 2 - 1) (g + 1) (by omega) ⟨j, hj1, by omega, hj3⟩ (by omega)
        refine ⟨r, ?_, hrf, hri⟩
        simp only [binLoopF, if_neg he, if_neg hlt, if_neg hnz, if_neg hnm]
        exact hr

/-- Every binary-search probe stays strictly below the list length. -/
lemma binLoopF_probes (values : List Nat) (sv : Nat) :
    ∀ fuel mn mx g, mn ≤ mx → mx < values.length →
      ∀ rc ∈ (binLoopF values sv fuel mn mx g).2, rc.guessIndex < values.length := by
  intro fuel
  induction fuel with
  | zero => intro mn mx g _ _ rc h; simp [binLoopF] at h
  | succ fuel ih =>
    intro mn mx g hmn hmx rc h
    have hgmx : (mn + mx) / 2 ≤ mx := by omega
    simp only [binLoopF] at h
    split_ifs at h with h1 h2 h3 h4 h5
    · simp at h
      rw [h]
      exact lt_of_le_of_lt hgmx hmx
    · simp at h
      rw [h]
      exact lt_of_le_of_lt hgmx hmx
    · simp only [List.mem_cons] at h
      rcases h with rfl | h
      · exact lt_of_le_of_lt hgmx hmx
      · exact ih _ _ _ (by omega) hmx rc h
    · simp at h
      rw [h]
      exact lt_of_le_of_lt hgmx hmx
    · simp at h
      rw [h]
      exact lt_of_le_of_lt hgmx hmx
    · simp only [List.mem_cons] at h
      rcases h with rfl | h
      · exact lt_of_le_of_lt hgmx hmx
      · exact ih _ _ _ (by omega) (by omega) rc h

/-- Head of a binary-search trace carries the entry bracket. -/
lemma binLoopF_head (values : List Nat) (sv : Nat) :
    ∀ fuel mn mx g rc, ((binLoopF values sv fuel mn mx g).2).head? = some rc →
      rc.minIndex = mn ∧ rc.maxIndex = mx := by
  intro fuel
  cases fuel with
  | zero => intro mn mx g rc h; simp [binLoopF] at h
  | succ fuel =>
    intro mn mx g rc h
    simp only [binLoopF] at h
    split_ifs at h <;> simp at h <;> rw [← h] <;> exact ⟨rfl, rfl⟩

/-- If the binary search ever probes index 0 on a value above the target,
that probe is the last iteration and the search returns not-found with the
index unassigned (the underflow guard, main.cpp:377-379). -/
lemma binLoopF_zeroProbe (values : List Nat) (sv : Nat) :
    ∀ fuel mn mx g k rc,
      ((binLoopF values sv fuel mn mx g).2).get? k = some rc →
      rc.guessIndex = 0 → values.getD 0 0 > sv →
      (∃ gs, (binLoopF values sv fuel mn mx g).1 = some ⟨false, none, gs⟩) ∧
        k + 1 = ((binLoopF values sv fuel mn mx g).2).length := by
  intro fuel
  induction fuel with
  | zero => intro mn mx g k rc h _ _; simp [binLoopF] at h
  | succ fuel ih =>
    intro mn mx g k rc h hz hgt
    simp only [binLoopF] at h ⊢
    split_ifs at h ⊢ with h1 h2 h3 h4 h5
    · rcases k with _ | k
      · simp only [List.get?_cons_zero, Option.some.injEq] at h
        subst h
        simp at hz
        exfalso
        rw [hz] at h1
        omega
      · simp at h
    · rcases k with _ | k
      · simp only [List.get?_cons_zero, Option.some.injEq] at h
        subst h
        simp at hz
        exfalso
        rw [hz] at h2
        omega
      · simp at h
    · rcases k with _ | k
      · simp only [List.get?_cons_zero, Option.some.injEq] at h
        subst h
        simp at hz
        exfalso
        rw [hz] at h2
        omega
      · simp only [List.get?_cons_succ] at h
        have := ih _ _ _ k rc h hz hgt
        simp only [List.length_cons]
        exact ⟨this.1, by omega⟩
    · refine ⟨⟨g + 1, rfl⟩, ?_⟩
      rcases k with _ | k
      · simp
      · simp at h
    · rcases k with _ | k
      · simp only [List.get?_cons_zero, Option.some.injEq] at h
        subst h
        simp at hz
        exact absurd hz h4
      · simp at h
    · rcases k with _ | k
      · simp only [List.get?_cons_zero, Option.some.injEq] at h
        subst h
        simp at hz
        exact absurd hz h4
      · simp only [List.get?_cons_succ] at h
        have := ih _ _ _ k rc h hz hgt
        simp only [List.length_cons]
        exact ⟨this.1, by omega⟩

/-- Consecutive binary-search iterations are related by `binStepR`: every
`maxIndex` update subtracts 1 from a probe index that the guard has shown
to be at least 1, so the unsigned subtraction cannot wrap. -/
lemma binLoopF_chain (values : List Nat) (sv : Nat) :
    ∀ fuel mn mx g, List.Chain' binStepR (binLoopF values sv fuel mn mx g).2 := by
  intro fuel
  induction fuel with
  | zero => intro mn mx g; simp [binLoopF]
  | succ fuel ih =>
    intro mn mx g
    simp only [binLoopF]
    split_ifs with h1 h2 h3 h4 h5
    · simp
    · simp
    · rw [List.chain'_cons']
      refine ⟨?_, ih _ _ _⟩
      intro b hb
      have := binLoopF_head values sv fuel _ _ _ b hb
      exact Or.inl ⟨this.2, this.1⟩
    · simp
    · simp
    · rw [List.chain'_cons']
      refine ⟨?_, ih _ _ _⟩
      intro b hb
      have := binLoopF_head values sv fuel _ _ _ b hb
      refine Or.inr ⟨this.1, ?_, this.2⟩
      show 1 ≤ (mn + mx) / 2
      omega

/-- Bracket state after an iteration of the line-fit/hybrid loop: a probe
below the target moves `minIndex` up to it, any other (non-equal) probe
moves `maxIndex` down to it (main.cpp:231-242). -/
def iterPost (values : List Nat) (sv : Nat) (rc : IterRec) : Nat × Nat :=
  if values.getD rc.guessIndex 0 < sv then (rc.guessIndex, rc.maxIndex)
  else (rc.minIndex, rc.guessIndex)

/-- A terminated bracket loop either found the target at an index holding
the target value, or reports not-found with the index field unassigned. -/
lemma bracketLoopF_some_shape (values : List Nat) (sv : Nat)
    (raw : Nat → Nat → Nat → Nat → Nat → Nat) :
    ∀ fuel k mn mx a b r, (bracketLoopF values sv raw fuel k mn mx a b).1 = some r →
      (r.found = true ∧ ∃ i, r.index = some i ∧ values.getD i 0 = sv) ∨
      (r.found = false ∧ r.index = none) := by
  intro fuel
  induction fuel with
  | zero => intro k mn mx a b r h; simp [bracketLoopF] at h
  | succ fuel ih =>
    intro k mn mx a b r h
    simp only [bracketLoopF] at h
    split_ifs at h with h1 h2 h3 h4
    · simp at h
      exact Or.inl ⟨by rw [← h], _, by rw [← h], h1⟩
    · simp at h
      exact Or.inr ⟨by rw [← h], by rw [← h]⟩
    · exact ih _ _ _ _ _ _ h
    · simp at h
      exact Or.inr ⟨by rw [← h], by rw [← h]⟩
    · exact ih _ _ _ _ _ _ h

/-- On a sorted list, the bracket loop with a target strictly inside the
open bracket and enough fuel succeeds, for an arbitrary probe oracle, at an
in-bounds index holding the target. -/
lemma bracketLoopF_hit (values : List Nat) (sv : Nat)
    (hsort : List.Sorted (· ≤ ·) values)
    (raw : Nat → Nat → Nat → Nat → Nat → Nat) :
    ∀ fuel k mn mx a b, mx < values.length →
      (∃ j, mn < j ∧ j < mx ∧ values.getD j 0 = sv) →
      mx - mn ≤ fuel →
      ∃ r, (bracketLoopF values sv raw fuel k mn mx a b).1 = some r ∧
        r.found = true ∧
        ∃ i, i < values.length ∧ r.index = some i ∧ values.getD i 0 = sv := by
  intro fuel
  induction fuel with
  | zero =>
    intro k mn mx a b hmx hj hfuel
    obtain ⟨j, hj1, hj2, _⟩ := hj
    omega
  | succ fuel ih =>
    intro k mn mx a b hmx hj hfuel
    obtain ⟨j, hj1, hj2, hj3⟩ := hj
    have hjlen : j < values.length := lt_trans hj2 hmx
    have hcl := Clamp_mem_of_le (show mn + 1 ≤ mx - 1 by omega) (raw k mn mx a b)
    have hglen : Clamp (mn + 1) (mx - 1) (raw k mn mx a b) < values.length := by omega
    by_cases he : values.getD (Clamp (mn + 1) (mx - 1) (raw k mn mx a b)) 0 = sv
    · refine ⟨⟨true, some (Clamp (mn + 1) (mx - 1) (raw k mn mx a b)), k + 1⟩, ?_, rfl,
        Clamp (mn + 1) (mx - 1) (raw k mn mx a b), hglen, rfl, he⟩
      simp only [bracketLoopF, if_pos he]
    · by_cases hlt : values.getD (Clamp (mn + 1) (mx - 1) (raw k mn mx a b)) 0 < sv
      · have hjgt : Clamp (mn + 1) (mx - 1) (raw k mn mx a b) < j := by
          by_contra hc
          have := sorted_getD_mono hsort (Nat.le_of_not_lt hc) hglen
          omega
        have hnx : ¬ (Clamp (mn + 1) (mx - 1) (raw k mn mx a b) + 1 ≥ mx) := by omega
        obtain ⟨r, hr, hrf, hri⟩ := ih (k + 1) _ mx
          (values.getD (Clamp (mn + 1) (mx - 1) (raw k mn mx a b)) 0) b hmx
          ⟨j, hjgt, hj2, hj3⟩ (by omega)
        refine ⟨r, ?_, hrf, hri⟩
        simp only [bracketLoopF, if_neg he, if_pos hlt, if_neg hnx]
        exact hr
      · have hjlt : j < Clamp (mn + 1) (mx - 1) (raw k mn mx a b) := by
          by_contra hc
          have := sorted_getD_mono hsort (Nat.le_of_not_lt hc) hjlen
          omega
        have hnm : ¬ (mn + 1 ≥ Clamp (mn + 1) (mx - 1) (raw k mn mx a b)) := by omega
        obtain ⟨r, hr, hrf, hri⟩ := ih (k + 1) mn _ a
          (values.getD (Clamp (mn + 1) (mx - 1) (raw k mn mx a b)) 0) (by omega)
          ⟨j, hj1, hjlt, hj3⟩ (by omega)
        refine ⟨r, ?_, hrf, hri⟩
        simp only [bracketLoopF, if_neg he, if_neg hlt, if_neg hnm]
        exact hr

/-- Every probe of the bracket loop stays strictly below the list length,
for any list contents and any oracle. -/
lemma bracketLoopF_probes (values : List Nat) (sv : Nat)
    (raw : Nat → Nat → Nat → Nat → Nat → Nat) :
    ∀ fuel k mn mx a b, mn < mx → mx < values.length →
      ∀ rc ∈ (bracketLoopF values sv raw fuel k mn mx a b).2,
        rc.guessIndex < values.length := by
  intro fuel
  induction fuel with
  | zero => intro k mn mx a b _ _ rc h; simp [bracketLoopF] at h
  | succ fuel ih =>
    intro k mn mx a b hmn hmx rc h
    have hgb : Clamp (mn + 1) (mx - 1) (raw k mn mx a b) ≤ mx := by
      rcases Clamp_cases (mn + 1) (mx - 1) (raw k mn mx a b) with hc | hc | hc <;> omega
    have hglen : Clamp (mn + 1) (mx - 1) (raw k mn mx a b) < values.length :=
      lt_of_le_of_lt hgb hmx
    simp only [bracketLoopF] at h
    split_ifs at h with h1 h2 h3 h4
    · simp at h
      rw [h]
      exact hglen
    · simp at h
      rw [h]
      exact hglen
    · simp only [List.mem_cons] at h
      rcases h with rfl | h
      · exact hglen
      · exact ih _ _ _ _ _ (by omega) hmx rc h
    · simp at h
      rw [h]
      exact hglen
    · simp only [List.mem_cons] at h
      rcases h with rfl | h
      · exact hglen
      · exact ih _ _ _ _ _ (by omega) hglen rc h

/-- Head of a bracket-loop trace carries the entry bracket. -/
lemma bracketLoopF_head (values : List Nat) (sv : Nat)
    (raw : Nat → Nat → Nat → Nat → Nat → Nat) :
    ∀ fuel k mn mx a b rc,
      ((bracketLoopF values sv raw fuel k mn mx a b).2).head? = some rc →
      rc.minIndex = mn ∧ rc.maxIndex = mx := by
  intro fuel
  cases fuel with
  | zero => intro k mn mx a b rc h; simp [bracketLoopF] at h
  | succ fuel =>
    intro k mn mx a b rc h
    simp only [bracketLoopF] at h
    split_ifs at h <;> simp at h <;> rw [← h] <;> exact ⟨rfl, rfl⟩

/-- With fuel at least the bracket width, the bracket loop terminates
normally (never runs out of fuel), for any contents and any oracle. -/
lemma bracketLoopF_isSome (values : List Nat) (sv : Nat)
    (raw : Nat → Nat → Nat → Nat → Nat → Nat) :
    ∀ fuel k mn mx a b, mn < mx → mx - mn ≤ fuel →
      ((bracketLoopF values sv raw fuel k mn mx a b).1).isSome = true := by
  intro fuel
  induction fuel with
  | zero => intro k mn mx a b hmn hfuel; omega
  | succ fuel ih =>
    intro k mn mx a b hmn hfuel
    simp only [bracketLoopF]
    split_ifs with h1 h2 h3 h4
    · rfl
    · rfl
    · exact ih _ _ _ _ _
        (by omega)
        (by rcases Clamp_cases (mn + 1) (mx - 1) (raw k mn mx a b) with hc | hc | hc <;> omega)
    · rfl
    · exact ih _ _ _ _ _
        (by omega)
        (by rcases Clamp_cases (mn + 1) (mx - 1) (raw k mn mx a b) with hc | hc | hc <;> omega)

/-- Between consecutive iterations of the bracket loop the bracket width
strictly shrinks, and every iteration after the first is entered with
`minIndex + 1 < maxIndex`. -/
lemma bracketLoopF_chain (values : List Nat) (sv : Nat)
    (raw : Nat → Nat → Nat → Nat → Nat → Nat) :
    ∀ fuel k mn mx a b,
      List.Chain'
        (fun r r' => r'.maxIndex - r'.minIndex < r.maxIndex - r.minIndex ∧
          r'.minIndex + 1 < r'.maxIndex)
        (bracketLoopF values sv raw fuel k mn mx a b).2 := by
  intro fuel
  induction fuel with
  | zero => intro k mn mx a b; simp [bracketLoopF]
  | succ fuel ih =>
    intro k mn mx a b
    simp only [bracketLoopF]
    split_ifs with h1 h2 h3 h4
    · simp
    · simp
    · rw [List.chain'_cons']
      refine ⟨?_, ih _ _ _ _ _⟩
      intro c hc
      have hh := bracketLoopF_head values sv raw fuel _ _ _ _ _ c hc
      rw [hh.1, hh.2]
      show mx - Clamp (mn + 1) (mx - 1) (raw k mn mx a b) < mx - mn ∧
        Clamp (mn + 1) (mx - 1) (raw k mn mx a b) + 1 < mx
      rcases Clamp_cases (mn + 1) (mx - 1) (raw k mn mx a b) with hcc | hcc | hcc <;> omega
    · simp
    · rw [List.chain'_cons']
      refine ⟨?_, ih _ _ _ _ _⟩
      intro c hc
      have hh := bracketLoopF_head values sv raw fuel _ _ _ _ _ c hc
      rw [hh.1, hh.2]
      show Clamp (mn + 1) (mx - 1) (raw k mn mx a b) - mn < mx - mn ∧
        mn + 1 < Clamp (mn + 1) (mx - 1) (raw k mn mx a b)
      rcases Clamp_cases (mn + 1) (mx - 1) (raw k mn mx a b) with hcc | hcc | hcc <;> omega

/-- The `i`-th recorded iteration of the bracket loop (started at guess
count `k`) computed its raw probe by applying the oracle at iteration
number `k + i` to its own entry state, and probed its clamp. -/
lemma bracketLoopF_get? (values : List Nat) (sv : Nat)
    (raw : Nat → Nat → Nat → Nat → Nat → Nat) :
    ∀ fuel k mn mx a b i rc,
      ((bracketLoopF values sv raw fuel k mn mx a b).2).get? i = some rc →
      rc.guessRaw = raw (k + i) rc.minIndex rc.maxIndex rc.minVal rc.maxVal ∧
        rc.guessIndex = Clamp (rc.minIndex + 1) (rc.maxIndex - 1) rc.guessRaw := by
  intro fuel
  induction fuel with
  | zero => intro k mn mx a b i rc h; simp [bracketLoopF] at h
  | succ fuel ih =>
    intro k mn mx a b i rc h
    simp only [bracketLoopF] at h
    split_ifs at h with h1 h2 h3 h4
    · rcases i with _ | i
      · simp only [List.get?_cons_zero, Option.some.injEq] at h
        subst h
        simp
      · simp at h
    · rcases i with _ | i
      · simp only [List.get?_cons_zero, Option.some.injEq] at h
        subst h
        simp
      · simp at h
    · rcases i with _ | i
      · simp only [List.get?_cons_zero, Option.some.injEq] at h
        subst h
        simp
      · simp only [List.get?_cons_succ] at h
        have := ih _ _ _ _ _ i rc h
        rw [show k + (i + 1) = k + 1 + i from by omega]
        exact this
    · rcases i with _ | i
      · simp only [List.get?_cons_zero, Option.some.injEq] at h
        subst h
        simp
      · simp at h
    · rcases i with _ | i
      · simp only [List.get?_cons_zero, Option.some.injEq] at h
        subst h
        simp
      · simp only [List.get?_cons_succ] at h
        have := ih _ _ _ _ _ i rc h
        rw [show k + (i + 1) = k + 1 + i from by omega]
        exact this

/-- A not-found bracket-loop run ends at a recorded iteration whose probe
missed and whose updated bracket is exhausted
(`minIndex + 1 >= maxIndex`, main.cpp:245-249). -/
lemma bracketLoopF_notFound_last (values : List Nat) (sv : Nat)
    (raw : Nat → Nat → Nat → Nat → Nat → Nat) :
    ∀ fuel k mn mx a b r,
      (bracketLoopF values sv raw fuel k mn mx a b).1 = some r →
      r.found = false →
      ∃ rc, ((bracketLoopF values sv raw fuel k mn mx a b).2).getLast? = some rc ∧
        values.getD rc.guessIndex 0 ≠ sv ∧
        (iterPost values sv rc).1 + 1 ≥ (iterPost values sv rc).2 := by
  intro fuel
  induction fuel with
  | zero => intro k mn mx a b r h _; simp [bracketLoopF] at h
  | succ fuel ih =>
    intro k mn mx a b r h hf
    simp only [bracketLoopF] at h ⊢
    split_ifs at h ⊢ with h1 h2 h3 h4
    · simp at h
      rw [← h] at hf
      simp at hf
    · refine ⟨⟨mn, mx, a, b, raw k mn mx a b, Clamp (mn + 1) (mx - 1) (raw k mn mx a b)⟩,
        rfl, h1, ?_⟩
      simp only [iterPost]
      rw [if_pos h2]
      exact h3
    · obtain ⟨rc, hlast, hne, hpost⟩ := ih _ _ _ _ _ _ h hf
      have hne' : (bracketLoopF values sv raw fuel (k + 1)
          (Clamp (mn + 1) (mx - 1) (raw k mn mx a b)) mx
          (values.getD (Clamp (mn + 1) (mx - 1) (raw k mn mx a b)) 0) b).2 ≠ [] := by
        intro hemp
        rw [hemp] at hlast
        simp at hlast
      obtain ⟨x, xs, hxs⟩ := List.exists_cons_of_ne_nil hne'
      refine ⟨rc, ?_, hne, hpost⟩
      dsimp only
      rw [hxs] at hlast ⊢
      rw [List.getLast?_cons_cons]
      exact hlast
    · refine ⟨⟨mn, mx, a, b, raw k mn mx a b, Clamp (mn + 1) (mx - 1) (raw k mn mx a b)⟩,
        rfl, h1, ?_⟩
      simp only [iterPost]
      rw [if_neg h2]
      exact h4
    · obtain ⟨rc, hlast, hne, hpost⟩ := ih _ _ _ _ _ _ h hf
      have hne' : (bracketLoopF values sv raw fuel (k + 1) mn
          (Clamp (mn + 1) (mx - 1) (raw k mn mx a b))
          a (values.getD (Clamp (mn + 1) (mx - 1) (raw k mn mx a b)) 0)).2 ≠ [] := by
        intro hemp
        rw [hemp] at hlast
        simp at hlast
      obtain ⟨x, xs, hxs⟩ := List.exists_cons_of_ne_nil hne'
      refine ⟨rc, ?_, hne, hpost⟩
      dsimp only
      rw [hxs] at hlast ⊢
      rw [List.getLast?_cons_cons]
      exact hlast

/-- Reaching the bracket loop (all three short circuits failed) forces at
least two elements. -/
lemma coreF_two_le (values : List Nat) (sv : Nat)
    (h1 : ¬ (sv < values.getD 0 0 ∨ sv > values.getD (values.length - 1) 0))
    (h2 : ¬ (sv = values.getD 0 0))
    (hlen : 0 < values.length) : 2 ≤ values.length := by
  by_contra hc
  have hl1 : values.length = 1 := by omega
  rw [hl1] at h1
  simp only [Nat.sub_self] at h1
  omega

/-- The shared line-fit/hybrid entry finds any target present in a sorted
non-empty list, for an arbitrary probe oracle, at an in-bounds index
holding the target. -/
lemma coreF_hit (values : List Nat) (sv : Nat)
    (hsort : List.Sorted (· ≤ ·) values) (hne : values ≠ [])
    (hmem : sv ∈ values) (raw : Nat → Nat → Nat → Nat → Nat → Nat) :
    ∃ r, (coreF values sv raw).1 = some r ∧ r.found = true ∧
      ∃ i, i < values.length ∧ r.index = some i ∧ values.getD i 0 = sv := by
  have hlen : 0 < values.length := List.length_pos.mpr hne
  obtain ⟨j, hjlen, hjval⟩ := getD_of_mem hmem
  have hmnle : values.getD 0 0 ≤ sv := by
    have := sorted_getD_mono hsort (Nat.zero_le j) hjlen
    omega
  have hmxge : sv ≤ values.getD (values.length - 1) 0 := by
    have := sorted_getD_mono hsort (show j ≤ values.length - 1 by omega) (by omega)
    omega
  have hnr : ¬ (sv < values.getD 0 0 ∨ sv > values.getD (values.length - 1) 0) := by omega
  simp only [coreF]
  rw [if_neg hnr]
  by_cases he0 : sv = values.getD 0 0
  · rw [if_pos he0]
    exact ⟨_, rfl, rfl, 0, hlen, rfl, he0.symm⟩
  · rw [if_neg he0]
    by_cases he1 : sv = values.getD (values.length - 1) 0
    · rw [if_pos he1]
      exact ⟨_, rfl, rfl, values.length - 1, by omega, rfl, he1.symm⟩
    · rw [if_neg he1]
      refine bracketLoopF_hit values sv hsort raw values.length 0 0 (values.length - 1)
        (values.getD 0 0) (values.getD (values.length - 1) 0) (by omega) ⟨j, ?_, ?_, hjval⟩
        (by omega)
      · rcases Nat.eq_zero_or_pos j with rfl | h
        · exact absurd hjval.symm he0
        · exact h
      · by_contra hc
        have hj : j = values.length - 1 := by omega
        rw [hj] at hjval
        exact he1 hjval.symm

/-- A not-found result of the shared entry leaves the index unassigned. -/
lemma coreF_notFound_index (values : List Nat) (sv : Nat)
    (raw : Nat → Nat → Nat → Nat → Nat → Nat) :
    ∀ r, (coreF values sv raw).1 = some r → r.found = false → r.index = none := by
  intro r h hf
  simp only [coreF] at h
  split_ifs at h with h1 h2 h3
  · simp at h
    rw [← h]
  · simp at h
    rw [← h] at hf
    simp at hf
  · simp at h
    rw [← h] at hf
    simp at hf
  · rcases bracketLoopF_some_shape values sv raw _ _ _ _ _ _ r h with ⟨hT, _⟩ | ⟨_, hI⟩
    · simp [hT] at hf
    · exact hI

/-- On a non-empty list the shared entry never runs out of fuel. -/
lemma coreF_isSome (values : List Nat) (sv : Nat)
    (raw : Nat → Nat → Nat → Nat → Nat → Nat) (hne : values ≠ []) :
    ((coreF values sv raw).1).isSome = true := by
  have hlen : 0 < values.length := List.length_pos.mpr hne
  simp only [coreF]
  split_ifs with h1 h2 h3
  · rfl
  · rfl
  · rfl
  · have h2le := coreF_two_le values sv h1 h2 hlen
    exact bracketLoopF_isSome values sv raw _ _ _ _ _ _ (by omega) (by omega)

/-- Every probe of the shared entry is in bounds, for any contents. -/
lemma coreF_probes (values : List Nat) (sv : Nat)
    (raw : Nat → Nat → Nat → Nat → Nat → Nat) (hne : values ≠ []) :
    ∀ rc ∈ (coreF values sv raw).2, rc.guessIndex < values.length := by
  have hlen : 0 < values.length := List.length_pos.mpr hne
  simp only [coreF]
  split_ifs with h1 h2 h3
  · intro rc h
    simp at h
  · intro rc h
    simp at h
  · intro rc h
    simp at h
  · intro rc h
    have h2le := coreF_two_le values sv h1 h2 hlen
    exact bracketLoopF_probes values sv raw _ _ _ _ _ _ (by omega) (by omega) rc h

/-- The iteration trace of the shared entry satisfies the shrink chain. -/
lemma coreF_chain (values : List Nat) (sv : Nat)
    (raw : Nat → Nat → Nat → Nat → Nat → Nat) :
    List.Chain'
      (fun r r' => r'.maxIndex - r'.minIndex < r.maxIndex - r.minIndex ∧
        r'.minIndex + 1 < r'.maxIndex)
      (coreF values sv raw).2 := by
  simp only [coreF]
  split_ifs with h1 h2 h3
  · simp
  · simp
  · simp
  · exact bracketLoopF_chain values sv raw _ _ _ _ _ _

/-- Iteration `i` of the shared entry applied the oracle at iteration
number `i` to its own entry state and probed the clamped result. -/
lemma coreF_get? (values : List Nat) (sv : Nat)
    (raw : Nat → Nat → Nat → Nat → Nat → Nat) :
    ∀ i rc, ((coreF values sv raw).2).get? i = some rc →
      rc.guessRaw = raw i rc.minIndex rc.maxIndex rc.minVal rc.maxVal ∧
        rc.guessIndex = Clamp (rc.minIndex + 1) (rc.maxIndex - 1) rc.guessRaw := by
  intro i rc h
  simp only [coreF] at h
  split_ifs at h with h1 h2 h3
  · simp at h
  · simp at h
  · simp at h
  · have := bracketLoopF_get? values sv raw _ _ _ _ _ _ i rc h
    rwa [Nat.zero_add] at this

/-- A not-found run of the shared entry either short-circuited (empty
trace) or ended at an iteration whose probe missed and whose updated
bracket is exhausted. -/
lemma coreF_notFound_last (values : List Nat) (sv : Nat)
    (raw : Nat → Nat → Nat → Nat → Nat → Nat) :
    ∀ r, (coreF values sv raw).1 = some r → r.found = false →
      (coreF values sv raw).2 = [] ∨
        ∃ rc, ((coreF values sv raw).2).getLast? = some rc ∧
          values.getD rc.guessIndex 0 ≠ sv ∧
          (iterPost values sv rc).1 + 1 ≥ (iterPost values sv rc).2 := by
  intro r h hf
  simp only [coreF] at h ⊢
  split_ifs at h ⊢ with h1 h2 h3
  · exact Or.inl rfl
  · simp at h
    rw [← h] at hf
    simp at hf
  · simp at h
    rw [← h] at hf
    simp at hf
  · exact Or.inr (bracketLoopF_notFound_last values sv raw _ _ _ _ _ _ r h hf)

/-- A successful probe result for `sv` on `values`: found, with an
in-bounds index holding a value equal to the target. -/
def HitResult (values : List Nat) (sv : Nat) (r : TestResults) : Prop :=
  r.found = true ∧ ∃ i, i < values.length ∧ r.index = some i ∧ values.getD i 0 = sv

/-- Linear scan hits any present target on sorted input. -/
lemma TestList_LinearSearch_hit (values : List Nat) (sv : Nat)
    (hsort : List.Sorted (· ≤ ·) values) (hmem : sv ∈ values) :
    HitResult values sv (TestList_LinearSearch values sv) := by
  obtain ⟨hf, j, hj, hidx, hval⟩ := linLoop_hit sv values hsort hmem 0 0
  exact ⟨hf, j, hj, by simpa using hidx, hval⟩

/-- Binary search hits any present target on sorted non-empty input. -/
lemma TestList_BinarySearch_hit (values : List Nat) (sv : Nat)
    (hsort : List.Sorted (· ≤ ·) values) (hne : values ≠ []) (hmem : sv ∈ values) :
    HitResult values sv (TestList_BinarySearch values sv) := by
  have hlen : 0 < values.length := List.length_pos.mpr hne
  obtain ⟨j, hjlen, hjval⟩ := getD_of_mem hmem
  obtain ⟨r, hr, hf, hi⟩ := binLoopF_hit values sv hsort values.length 0
    (values.length - 1) 0 (by omega) ⟨j, Nat.zero_le j, by omega, hjval⟩ (by omega)
  unfold TestList_BinarySearch
  rw [hr]
  exact ⟨hf, hi⟩

/-- The line-fit search hits any present target on sorted non-empty input,
for any probe oracle. -/
lemma TestList_LineFit_hit (values : List Nat) (sv : Nat)
    (hsort : List.Sorted (· ≤ ·) values) (hne : values ≠ []) (hmem : sv ∈ values)
    (lf : Nat → Nat → Nat → Nat → Nat) :
    HitResult values sv (TestList_LineFit values sv lf) := by
  obtain ⟨r, hr, hf, hi⟩ := coreF_hit values sv hsort hne hmem
    (fun _ a b c d => lf a b c d)
  unfold TestList_LineFit lineFitCoreF
  rw [hr]
  exact ⟨hf, hi⟩

/-- The hybrid search hits any present target on sorted non-empty input,
for any probe oracle. -/
lemma TestList_HybridSearch_hit (values : List Nat) (sv : Nat)
    (hsort : List.Sorted (· ≤ ·) values) (hne : values ≠ []) (hmem : sv ∈ values)
    (lf : Nat → Nat → Nat → Nat → Nat) :
    HitResult values sv (TestList_HybridSearch values sv lf) := by
  obtain ⟨r, hr, hf, hi⟩ := coreF_hit values sv hsort hne hmem
    (fun k a b c d => if k % 2 = 1 then (a + b) / 2 else lf a b c d)
  unfold TestList_HybridSearch hybridCoreF
  rw [hr]
  exact ⟨hf, hi⟩

/-- C1.  For every sorted non-empty sequence and every target value
occurring in it, each of the five strategies — Linear Scan, Binary Search,
Line Fit, Line Fit Blind, Hybrid — returns found = true together with an
index at which the sequence holds a value equal to the target.  The
line-fit probe formula is universally quantified as the oracle `lf`. -/
theorem claim1_all_strategies_hit (values : List Nat) (sv : Nat)
    (hsort : List.Sorted (· ≤ ·) values) (hne : values ≠ []) (hmem : sv ∈ values) :
    HitResult values sv (TestList_LinearSearch values sv) ∧
    HitResult values sv (TestList_BinarySearch values sv) ∧
    ∀ lf, HitResult values sv (TestList_LineFit values sv lf) ∧
      HitResult values sv (TestList_LineFitBlind values sv lf) ∧
      HitResult values sv (TestList_HybridSearch values sv lf) := by
  refine ⟨TestList_LinearSearch_hit values sv hsort hmem,
    TestList_BinarySearch_hit values sv hsort hne hmem, ?_⟩
  intro lf
  have hlf := TestList_LineFit_hit values sv hsort hne hmem lf
  exact ⟨hlf, ⟨hlf.1, hlf.2⟩, TestList_HybridSearch_hit values sv hsort hne hmem lf⟩

/-- Witness for C1 at the spec's duplicate scenario. -/
theorem claim1_witness :
    (List.Sorted (· ≤ ·) [1, 3, 3, 3, 7] ∧ ([1, 3, 3, 3, 7] : List Nat) ≠ [] ∧
      (3 : Nat) ∈ [1, 3, 3, 3, 7]) ∧
    HitResult [1, 3, 3, 3, 7] 3 (TestList_LinearSearch [1, 3, 3, 3, 7] 3) ∧
    HitResult [1, 3, 3, 3, 7] 3 (TestList_LineFit [1, 3, 3, 3, 7] 3 (ratLineGuess 3)) :=
  ⟨⟨by decide, by decide, by decide⟩,
    (claim1_all_strategies_hit [1, 3, 3, 3, 7] 3 (by decide) (by decide) (by decide)).1,
    ((claim1_all_strategies_hit [1, 3, 3, 3, 7] 3 (by decide) (by decide)
      (by decide)).2.2 (ratLineGuess 3)).1⟩

/-- C2.  On every non-empty sequence and target, Line Fit Blind returns the
same found flag and index as Line Fit and a guess count larger by exactly
2 (main.cpp:393-400). -/
theorem claim2_blind_offset (values : List Nat) (sv : Nat)
    (lf : Nat → Nat → Nat → Nat → Nat) (hne : values ≠ []) :
    (TestList_LineFitBlind values sv lf).found = (TestList_LineFit values sv lf).found ∧
    (TestList_LineFitBlind values sv lf).index = (TestList_LineFit values sv lf).index ∧
    (TestList_LineFitBlind values sv lf).guesses = (TestList_LineFit values sv lf).guesses + 2 :=
  ⟨rfl, rfl, rfl⟩

/-- Witness for C2. -/
theorem claim2_witness :
    (([0, 2] : List Nat) ≠ []) ∧
    (TestList_LineFitBlind [0, 2] 1 (ratLineGuess 1)).guesses =
      (TestList_LineFit [0, 2] 1 (ratLineGuess 1)).guesses + 2 :=
  ⟨by decide, (claim2_blind_offset [0, 2] 1 (ratLineGuess 1) (by decide)).2.2⟩

/-- Formalization of C3's per-iteration statement: every loop iteration of
Line Fit probes strictly inside the open bracket
`(minIndex + 1 .. maxIndex - 1)` and the bracket `[minIndex, maxIndex]`
strictly shrinks across the iteration. -/
def ProbesInsideAndShrinks (values : List Nat) (sv : Nat)
    (lf : Nat → Nat → Nat → Nat → Nat) : Prop :=
  ∀ rc ∈ lineFitTrace values sv lf,
    (rc.minIndex < rc.guessIndex ∧ rc.guessIndex < rc.maxIndex) ∧
    (iterPost values sv rc).2 - (iterPost values sv rc).1 < rc.maxIndex - rc.minIndex

/-- C3 counterexample.  On the two-element sequence `[0, 2]` with target 1
the single loop iteration enters with `minIndex + 1 = maxIndex` (bracket
`[0, 1]`, open bracket empty), its probe is clamped to index 0 — not
strictly inside — and the bracket does not shrink. -/
theorem claim3_counterexample :
    ¬ ProbesInsideAndShrinks [0, 2] 1 (ratLineGuess 1) := by
  unfold ProbesInsideAndShrinks
  decide

/-- C3 as amended.  For every input and probe oracle: (a) between
consecutive loop iterations the bracket strictly shrinks, and every
iteration after the first is entered with `minIndex + 1 < maxIndex`;
(b) every iteration entered with `minIndex + 1 < maxIndex` probes strictly
inside the open bracket; (c) on a non-empty sequence the loop always
terminates (the fuel `values.length` of the embedding never runs out);
(d) a not-found result either short-circuited before the loop or ends at
an iteration whose probe missed and whose updated bracket satisfies
`minIndex + 1 >= maxIndex`. -/
theorem claim3_amended_termination (values : List Nat) (sv : Nat)
    (lf : Nat → Nat → Nat → Nat → Nat) :
    List.Chain'
      (fun r r' => r'.maxIndex - r'.minIndex < r.maxIndex - r.minIndex ∧
        r'.minIndex + 1 < r'.maxIndex)
      (lineFitTrace values sv lf) ∧
    (∀ rc ∈ lineFitTrace values sv lf, rc.minIndex + 1 < rc.maxIndex →
      rc.minIndex < rc.guessIndex ∧ rc.guessIndex < rc.maxIndex) ∧
    (values ≠ [] → ((lineFitCoreF values sv lf).1).isSome = true) ∧
    (values ≠ [] → (TestList_LineFit values sv lf).found = false →
      lineFitTrace values sv lf = [] ∨
        ∃ rc, (lineFitTrace values sv lf).getLast? = some rc ∧
          values.getD rc.guessIndex 0 ≠ sv ∧
          (iterPost values sv rc).1 + 1 ≥ (iterPost values sv rc).2) := by
  refine ⟨coreF_chain values sv _, ?_, ?_, ?_⟩
  · intro rc hmem hlt
    obtain ⟨i, hi⟩ := List.mem_iff_get?.mp hmem
    have hcl := (coreF_get? values sv _ i rc hi).2
    have := Clamp_mem_of_le (show rc.minIndex + 1 ≤ rc.maxIndex - 1 by omega) rc.guessRaw
    omega
  · intro hne
    exact coreF_isSome values sv _ hne
  · intro hne hf
    have hs := coreF_isSome values sv (fun _ a b c d => lf a b c d) hne
    obtain ⟨r, hr⟩ := Option.isSome_iff_exists.mp hs
    unfold TestList_LineFit lineFitCoreF at hf
    rw [hr] at hf
    simp only [Option.getD_some] at hf
    exact coreF_notFound_last values sv _ r hr hf

/-- Witness for the amended C3 on a concrete not-found run with a genuine
loop iteration. -/
theorem claim3_witness :
    ((⟨0, 2, 0, 20, 1, 1⟩ : IterRec) ∈ lineFitTrace [0, 10, 20] 5 (ratLineGuess 5) ∧
      (⟨0, 2, 0, 20, 1, 1⟩ : IterRec).minIndex + 1 < (⟨0, 2, 0, 20, 1, 1⟩ : IterRec).maxIndex) ∧
    ((⟨0, 2, 0, 20, 1, 1⟩ : IterRec).minIndex < (⟨0, 2, 0, 20, 1, 1⟩ : IterRec).guessIndex ∧
      (⟨0, 2, 0, 20, 1, 1⟩ : IterRec).guessIndex < (⟨0, 2, 0, 20, 1, 1⟩ : IterRec).maxIndex) ∧
    (((lineFitCoreF [0, 10, 20] 5 (ratLineGuess 5)).1).isSome = true) ∧
    ((TestList_LineFit [0, 10, 20] 5 (ratLineGuess 5)).found = false) ∧
    (lineFitTrace [0, 10, 20] 5 (ratLineGuess 5) = [] ∨
      ∃ rc, (lineFitTrace [0, 10, 20] 5 (ratLineGuess 5)).getLast? = some rc ∧
        ([0, 10, 20] : List Nat).getD rc.guessIndex 0 ≠ 5 ∧
        (iterPost [0, 10, 20] 5 rc).1 + 1 ≥ (iterPost [0, 10, 20] 5 rc).2) :=
  ⟨⟨by decide, by decide⟩,
    (claim3_amended_termination [0, 10, 20] 5 (ratLineGuess 5)).2.1 _ (by decide) (by decide),
    (claim3_amended_termination [0, 10, 20] 5 (ratLineGuess 5)).2.2.1 (by decide),
    by decide,
    (claim3_amended_termination [0, 10, 20] 5 (ratLineGuess 5)).2.2.2 (by decide) (by decide)⟩

/-- C4.  If binary search ever probes index 0 on a value above the target,
the underflow guard returns found = false immediately (that probe is the
final iteration, and the index stays unassigned); and across consecutive
iterations every `maxIndex` update is `guessIndex - 1` with
`guessIndex >= 1`, so the unsigned bracket bounds never underflow. -/
theorem claim4_underflow_guard (values : List Nat) (sv : Nat)
    (hne : values ≠ []) (hsort : List.Sorted (· ≤ ·) values) :
    (∀ k rc, (binTrace values sv).get? k = some rc → rc.guessIndex = 0 →
      values.getD 0 0 > sv →
      (TestList_BinarySearch values sv).found = false ∧
        (TestList_BinarySearch values sv).index = none ∧
        k + 1 = (binTrace values sv).length) ∧
    List.Chain' binStepR (binTrace values sv) := by
  constructor
  · intro k rc hk hz hgt
    obtain ⟨⟨gs, hgs⟩, hlen⟩ := binLoopF_zeroProbe values sv values.length 0
      (values.length - 1) 0 k rc hk hz hgt
    unfold TestList_BinarySearch
    rw [hgs]
    exact ⟨rfl, rfl, hlen⟩
  · exact binLoopF_chain values sv values.length 0 (values.length - 1) 0

/-- Witness for C4: on `[5]` with target 3 the first probe is index 0 with
value 5 > 3 and the guard fires. -/
theorem claim4_witness :
    (([5] : List Nat) ≠ [] ∧ List.Sorted (· ≤ ·) [5] ∧
      (binTrace [5] 3).get? 0 = some ⟨0, 0, 0⟩ ∧
      (⟨0, 0, 0⟩ : BinRec).guessIndex = 0 ∧ ([5] : List Nat).getD 0 0 > 3) ∧
    ((TestList_BinarySearch [5] 3).found = false ∧
      (TestList_BinarySearch [5] 3).index = none ∧
      0 + 1 = (binTrace [5] 3).length) :=
  ⟨⟨by decide, by decide, by decide, by decide, by decide⟩,
    (claim4_underflow_guard [5] 3 (by decide) (by decide)).1 0 ⟨0, 0, 0⟩
      (by decide) (by decide) (by decide)⟩

/-- C5.  In Hybrid the probe mode is a fixed unconditional toggle: the
recorded iteration `i` (0-based) of any run computes its raw probe by the
line-fit oracle applied to its own bracket state when `i` is even, and as
`(minIndex + maxIndex) / 2` when `i` is odd, and always probes the clamp
of that raw value into the open bracket — independently of how much the
bracket shrank. -/
theorem claim5_fixed_alternation (values : List Nat) (sv : Nat)
    (lf : Nat → Nat → Nat → Nat → Nat) :
    ∀ i rc, (hybridTrace values sv lf).get? i = some rc →
      rc.guessIndex = Clamp (rc.minIndex + 1) (rc.maxIndex - 1) rc.guessRaw ∧
      (i % 2 = 0 → rc.guessRaw = lf rc.minIndex rc.maxIndex rc.minVal rc.maxVal) ∧
      (i % 2 = 1 → rc.guessRaw = (rc.minIndex + rc.maxIndex) / 2) := by
  intro i rc h
  have hor := coreF_get? values sv
    (fun k a b c d => if k % 2 = 1 then (a + b) / 2 else lf a b c d) i rc h
  refine ⟨hor.2, ?_, ?_⟩
  · intro hev
    rw [hor.1]
    show (if i % 2 = 1 then (rc.minIndex + rc.maxIndex) / 2
        else lf rc.minIndex rc.maxIndex rc.minVal rc.maxVal) =
      lf rc.minIndex rc.maxIndex rc.minVal rc.maxVal
    rw [if_neg (by omega)]
  · intro hodd
    rw [hor.1]
    show (if i % 2 = 1 then (rc.minIndex + rc.maxIndex) / 2
        else lf rc.minIndex rc.maxIndex rc.minVal rc.maxVal) =
      (rc.minIndex + rc.maxIndex) / 2
    rw [if_pos hodd]

/-- Witness for C5: a hybrid run with a line-fit iteration followed by a
bisection iteration. -/
theorem claim5_witness :
    ((hybridTrace [0, 10, 20, 30, 100] 15 (ratLineGuess 15)).get? 1 =
        some ⟨1, 4, 10, 100, 2, 2⟩ ∧ (1 : Nat) % 2 = 1) ∧
    ((⟨1, 4, 10, 100, 2, 2⟩ : IterRec).guessRaw =
      ((⟨1, 4, 10, 100, 2, 2⟩ : IterRec).minIndex +
        (⟨1, 4, 10, 100, 2, 2⟩ : IterRec).maxIndex) / 2) :=
  ⟨⟨by decide, by decide⟩,
    (claim5_fixed_alternation [0, 10, 20, 30, 100] 15 (ratLineGuess 15) 1
      ⟨1, 4, 10, 100, 2, 2⟩ (by decide)).2.2 (by decide)⟩

/-- A not-found binary search leaves the index field unassigned. -/
lemma TestList_BinarySearch_notFound (values : List Nat) (sv : Nat) :
    (TestList_BinarySearch values sv).found = false →
      (TestList_BinarySearch values sv).index = none := by
  unfold TestList_BinarySearch
  cases hb : (binLoopF values sv values.length 0 (values.length - 1) 0).1 with
  | none => intro _; rfl
  | some r =>
    simp only [Option.getD_some]
    intro hf
    rcases binLoopF_some_shape values sv _ _ _ _ r hb with ⟨hT, _⟩ | ⟨_, hI⟩
    · simp [hT] at hf
    · exact hI

/-- A not-found line-fit search leaves the index field unassigned. -/
lemma TestList_LineFit_notFound (values : List Nat) (sv : Nat)
    (lf : Nat → Nat → Nat → Nat → Nat) :
    (TestList_LineFit values sv lf).found = false →
      (TestList_LineFit values sv lf).index = none := by
  unfold TestList_LineFit lineFitCoreF
  cases hb : (coreF values sv (fun _ a b c d => lf a b c d)).1 with
  | none => intro _; rfl
  | some r =>
    simp only [Option.getD_some]
    exact coreF_notFound_index values sv _ r hb

/-- A not-found hybrid search leaves the index field unassigned. -/
lemma TestList_HybridSearch_notFound (values : List Nat) (sv : Nat)
    (lf : Nat → Nat → Nat → Nat → Nat) :
    (TestList_HybridSearch values sv lf).found = false →
      (TestList_HybridSearch values sv lf).index = none := by
  unfold TestList_HybridSearch hybridCoreF
  cases hb : (coreF values sv
      (fun k a b c d => if k % 2 = 1 then (a + b) / 2 else lf a b c d)).1 with
  | none => intro _; rfl
  | some r =>
    simp only [Option.getD_some]
    exact coreF_notFound_index values sv _ r hb

/-- C6 counterexample.  Linear scan on `[0]` with target 5 exhausts the
sequence: it returns found = false with index = 1, one past the
last-examined position 0. -/
theorem claim6_counterexample :
    (TestList_LinearSearch [0] 5).found = false ∧
    (linearReads [0] 5).getLast? = some 0 ∧
    (TestList_LinearSearch [0] 5).index = some 1 ∧
    (TestList_LinearSearch [0] 5).index ≠ some 0 := by
  decide

/-- C6 as amended.  On a not-found result, Linear Scan's index is the
cursor where scanning stopped — the sequence length (one past the last
examined position) when the scan ran off the end, otherwise the
last-examined position, whose value exceeds the target; the four
bracketing strategies leave the index field unassigned. -/
theorem claim6_amended_not_found_index (values : List Nat) (sv : Nat)
    (lf : Nat → Nat → Nat → Nat → Nat) :
    ((TestList_LinearSearch values sv).found = false →
      ∃ c, (TestList_LinearSearch values sv).index = some c ∧
        (c = values.length ∨
          (c < values.length ∧ (linearReads values sv).getLast? = some c ∧
            values.getD c 0 > sv))) ∧
    ((TestList_BinarySearch values sv).found = false →
      (TestList_BinarySearch values sv).index = none) ∧
    ((TestList_LineFit values sv lf).found = false →
      (TestList_LineFit values sv lf).index = none) ∧
    ((TestList_LineFitBlind values sv lf).found = false →
      (TestList_LineFitBlind values sv lf).index = none) ∧
    ((TestList_HybridSearch values sv lf).found = false →
      (TestList_HybridSearch values sv lf).index = none) := by
  refine ⟨?_, TestList_BinarySearch_notFound values sv,
    TestList_LineFit_notFound values sv lf, ?_, TestList_HybridSearch_notFound values sv lf⟩
  · intro hf
    obtain ⟨c, hc, hor⟩ := linLoop_notFound sv values 0 0 hf
    refine ⟨c, hc, ?_⟩
    rcases hor with h | ⟨h1, h2, h3, h4⟩
    · exact Or.inl (by omega)
    · refine Or.inr ⟨by omega, h3, ?_⟩
      simpa using h4
  · exact TestList_LineFit_notFound values sv lf

/-- Witness for the amended C6: linear exhaustion on `[0]` target 5, and
unassigned indices for the bracketing strategies on the same miss. -/
theorem claim6_witness :
    ((TestList_LinearSearch [0] 5).found = false ∧
      ∃ c, (TestList_LinearSearch [0] 5).index = some c ∧
        (c = ([0] : List Nat).length ∨
          (c < ([0] : List Nat).length ∧ (linearReads [0] 5).getLast? = some c ∧
            ([0] : List Nat).getD c 0 > 5))) ∧
    ((TestList_BinarySearch [0] 5).found = false ∧
      (TestList_BinarySearch [0] 5).index = none) ∧
    ((TestList_LineFit [0] 5 (ratLineGuess 5)).found = false ∧
      (TestList_LineFit [0] 5 (ratLineGuess 5)).index = none) ∧
    ((TestList_LineFitBlind [0] 5 (ratLineGuess 5)).found = false ∧
      (TestList_LineFitBlind [0] 5 (ratLineGuess 5)).index = none) ∧
    ((TestList_HybridSearch [0] 5 (ratLineGuess 5)).found = false ∧
      (TestList_HybridSearch [0] 5 (ratLineGuess 5)).index = none) :=
  ⟨⟨by decide, (claim6_amended_not_found_index [0] 5 (ratLineGuess 5)).1 (by decide)⟩,
    ⟨by decide, (claim6_amended_not_found_index [0] 5 (ratLineGuess 5)).2.1 (by decide)⟩,
    ⟨by decide, (claim6_amended_not_found_index [0] 5 (ratLineGuess 5)).2.2.1 (by decide)⟩,
    ⟨by decide, (claim6_amended_not_found_index [0] 5 (ratLineGuess 5)).2.2.2.1 (by decide)⟩,
    ⟨by decide, (claim6_amended_not_found_index [0] 5 (ratLineGuess 5)).2.2.2.2 (by decide)⟩⟩

/-- C9.  The Verifier flags a failure exactly when the found flags differ,
or both results are found at differing indices holding differing values;
in particular equal values at different found indices (duplicates) are
accepted. -/
theorem claim9_verifier_iff (values : List Nat) (sv : Nat) (result : TestResults) :
    (VerifyResults values sv result = true ↔
      (result.found ≠ (TestList_LinearSearch values sv).found ∨
        (result.found = true ∧ (TestList_LinearSearch values sv).found = true ∧
          result.index ≠ (TestList_LinearSearch values sv).index ∧
          valueAtOpt values result.index ≠
            valueAtOpt values (TestList_LinearSearch values sv).index))) ∧
    (result.found = true → (TestList_LinearSearch values sv).found = true →
      valueAtOpt values result.index =
        valueAtOpt values (TestList_LinearSearch values sv).index →
      VerifyResults values sv result = false) := by
  constructor
  · simp only [VerifyResults]
    split_ifs with h1 h2
    · simp only [true_iff]
      exact Or.inl h1
    · simp only [true_iff]
      push_neg at h1
      exact Or.inr ⟨h2.1, by rw [← h1, h2.1], h2.2.1, h2.2.2⟩
    · simp only [false_iff]
      push_neg at h1 h2
      rintro (hc | ⟨hf, ha, hi, hv⟩)
      · exact hc h1
      · exact hv (h2 hf hi)
  · intro hf ha hv
    simp only [VerifyResults]
    split_ifs with h1 h2
    · exact absurd (hf.trans ha.symm) h1
    · exact absurd hv h2.2.2
    · rfl

/-- Witness for C9 at the spec's duplicate scenario: sequence
`[1, 3, 3, 3, 7]`, target 3, candidate found at index 2 while ground truth
finds index 1 — no failure. -/
theorem claim9_witness :
    ((⟨true, some 2, 5⟩ : TestResults).found = true ∧
      (TestList_LinearSearch [1, 3, 3, 3, 7] 3).found = true ∧
      valueAtOpt [1, 3, 3, 3, 7] (⟨true, some 2, 5⟩ : TestResults).index =
        valueAtOpt [1, 3, 3, 3, 7] (TestList_LinearSearch [1, 3, 3, 3, 7] 3).index) ∧
    VerifyResults [1, 3, 3, 3, 7] 3 ⟨true, some 2, 5⟩ = false :=
  ⟨⟨by decide, by decide, by decide⟩,
    (claim9_verifier_iff [1, 3, 3, 3, 7] 3 ⟨true, some 2, 5⟩).2
      (by decide) (by decide) (by decide)⟩

/-- C10.  On every non-empty sequence (any contents) and every target, all
indices at which any of the five strategies reads the sequence are
strictly below the sequence length. -/
theorem claim10_reads_in_bounds (values : List Nat) (sv : Nat)
    (lf : Nat → Nat → Nat → Nat → Nat) (hne : values ≠ []) :
    (∀ i ∈ linearReads values sv, i < values.length) ∧
    (∀ i ∈ binReads values sv, i < values.length) ∧
    (∀ i ∈ lineFitReads values sv lf, i < values.length) ∧
    (∀ i ∈ lineFitBlindReads values sv lf, i < values.length) ∧
    (∀ i ∈ hybridReads values sv lf, i < values.length) := by
  have hlen : 0 < values.length := List.length_pos.mpr hne
  have hlin : ∀ i ∈ linearReads values sv, i < values.length := by
    intro i hi
    have := linLoop_reads sv values 0 0 i hi
    omega
  have hbin : ∀ i ∈ binReads values sv, i < values.length := by
    intro i hi
    obtain ⟨rc, hrc, hrce⟩ := List.mem_map.mp hi
    rw [← hrce]
    exact binLoopF_probes values sv values.length 0 (values.length - 1) 0
      (by omega) (by omega) rc hrc
  have hlfr : ∀ i ∈ lineFitReads values sv lf, i < values.length := by
    intro i hi
    rcases List.mem_cons.mp hi with rfl | hi
    · exact hlen
    · rcases List.mem_cons.mp hi with rfl | hi
      · omega
      · obtain ⟨rc, hrc, hrce⟩ := List.mem_map.mp hi
        rw [← hrce]
        exact coreF_probes values sv _ hne rc hrc
  have hhyb : ∀ i ∈ hybridReads values sv lf, i < values.length := by
    intro i hi
    rcases List.mem_cons.mp hi with rfl | hi
    · exact hlen
    · rcases List.mem_cons.mp hi with rfl | hi
      · omega
      · obtain ⟨rc, hrc, hrce⟩ := List.mem_map.mp hi
        rw [← hrce]
        exact coreF_probes values sv _ hne rc hrc
  exact ⟨hlin, hbin, hlfr, hlfr, hhyb⟩

/-- Witness for C10 on a one-element unsorted-irrelevant sequence. -/
theorem claim10_witness :
    (([5] : List Nat) ≠ []) ∧ (0 ∈ linearReads [5] 0) ∧
      (0 < ([5] : List Nat).length) :=
  ⟨by decide, by decide,
    (claim10_reads_in_bounds [5] 0 (ratLineGuess 0) (by decide)).1 0 (by decide)⟩

/-- Inserting below all elements is a cons. -/
lemma insertSorted_eq_cons (x : Nat) (l : List Nat) (h : ∀ y ∈ l, x ≤ y) :
    insertSorted x l = x :: l := by
  cases l with
  | nil => rfl
  | cons y ys =>
    simp only [insertSorted, if_pos (h y (List.mem_cons_self y ys))]

/-- The sort pass is the identity on already-sorted buffers. -/
lemma sortList_eq_of_pairwise (l : List Nat) (h : List.Pairwise (· ≤ ·) l) :
    sortList l = l := by
  induction l with
  | nil => rfl
  | cons x xs ih =>
    have hs : sortList (x :: xs) = insertSorted x (sortList xs) := rfl
    rw [hs, ih (List.pairwise_cons.mp h).2]
    exact insertSorted_eq_cons x xs (List.pairwise_cons.mp h).1

/-- Positional read of a mapped range. -/
lemma getD_range_map (f : Nat → Nat) (n i : Nat) (h : i < n) :
    ((List.range n).map f).getD i 0 = f i := by
  rw [List.getD_eq_getElem _ _ (by simpa using h)]
  simp

/-- The per-index log values are monotone in the index (for `count >= 2`),
so the generated buffer is already sorted. -/
lemma logVal_mono {count : Nat} (hc : 2 ≤ count) {i j : Nat} (hij : i ≤ j) :
    logVal count i ≤ logVal count j := by
  have hlc : (0 : ℝ) < Real.log count := by
    apply Real.log_pos
    exact_mod_cast lt_of_lt_of_le one_lt_two hc
  have hmono : Real.log ((i : ℝ) + 1 + 1) / Real.log count * (c_maxValue : ℝ) ≤
      Real.log ((j : ℝ) + 1 + 1) / Real.log count * (c_maxValue : ℝ) := by
    have hlog : Real.log ((i : ℝ) + 1 + 1) ≤ Real.log ((j : ℝ) + 1 + 1) := by
      apply Real.log_le_log (by positivity)
      have : (i : ℝ) ≤ (j : ℝ) := by exact_mod_cast hij
      linarith
    have hcm : (0 : ℝ) ≤ (c_maxValue : ℝ) := by positivity
    apply mul_le_mul_of_nonneg_right _ hcm
    exact div_le_div_of_nonneg_right hlog (le_of_lt hlc)
  exact Int.toNat_le_toNat (Int.floor_mono hmono)

/-- Value of MakeList_Log at each index: since the buffer is monotone in
the index, the sort pass is the identity and the value at index `i` is the
per-index formula `logVal`. -/
lemma makeListLog_getD {count : Nat} (hc : 2 ≤ count) {i : Nat} (hi : i < count) :
    (MakeList_Log count).getD i 0 = logVal count i := by
  unfold MakeList_Log
  rw [sortList_eq_of_pairwise]
  · exact getD_range_map (logVal count) count i hi
  · rw [List.pairwise_map]
    exact (List.pairwise_lt_range count).imp
      (fun {a b} hab => logVal_mono hc (le_of_lt hab))

/-- The logarithm comparison behind the C7 counterexample:
`3 log 2 < 2 log 3` because `8 < 9`. -/
lemma three_log_two_lt_two_log_three :
    3 * Real.log 2 < 2 * Real.log 3 := by
  have h8 : Real.log 8 < Real.log 9 :=
    Real.log_lt_log (by norm_num) (by norm_num)
  have e8 : Real.log 8 = 3 * Real.log 2 := by
    rw [show (8 : ℝ) = 2 ^ 3 by norm_num, Real.log_pow]
    push_cast
    ring
  have e9 : Real.log 9 = 2 * Real.log 3 := by
    rw [show (9 : ℝ) = 3 ^ 2 by norm_num, Real.log_pow]
    push_cast
    ring
  linarith

/-- Value of the source's Log generator at index 1 for count 2: at least
3000 (the exact value is `floor(2000 * log 3 / log 2)`, about 3169). -/
lemma logVal_two_one_ge : 3000 ≤ logVal 2 1 := by
  have hl2 : (0 : ℝ) < Real.log 2 := Real.log_pos one_lt_two
  unfold logVal
  rw [show (((1 : Nat) : ℝ) + 1 + 1) = 3 by norm_num,
    show (((2 : Nat) : ℝ)) = 2 by norm_num]
  have hkey : (3000 : ℝ) ≤ Real.log 3 / Real.log 2 * (c_maxValue : ℝ) := by
    have h23 := three_log_two_lt_two_log_three
    rw [show ((c_maxValue : Nat) : ℝ) = 2000 by norm_num [c_maxValue],
      div_mul_eq_mul_div, le_div_iff₀ hl2]
    linarith
  have hfl : (3000 : ℤ) ≤ ⌊Real.log 3 / Real.log 2 * (c_maxValue : ℝ)⌋ := by
    apply Int.le_floor.mpr
    exact_mod_cast hkey
  have hm := Int.toNat_le_toNat hfl
  simpa using hm

/-- Value of the spec formula `round(V * log(i + 2) / log(N + 1))` at
count 2, index 1: exactly 2000. -/
lemma logSpecVal_two_one : logSpecVal 2 1 = 2000 := by
  unfold logSpecVal
  rw [show (((1 : Nat) : ℝ) + 2) = 3 by norm_num,
    show (((2 : Nat) : ℝ) + 1) = 3 by norm_num]
  have hl3 : Real.log 3 ≠ 0 := ne_of_gt (Real.log_pos (by norm_num))
  rw [mul_div_assoc, div_self hl3, mul_one,
    show ((c_maxValue : Nat) : ℝ) = ((2000 : Nat) : ℝ) by norm_num [c_maxValue],
    round_natCast]
  rfl

/-- C7 counterexample.  At count N = 2, index i = 1, the source's Log
generator yields `floor(2000 * log 3 / log 2)` (at least 3000) while the
claimed formula `round(V * log(i + 2) / log(N + 1))` yields exactly 2000:
the code divides by `log N`, not `log(N + 1)`, and truncates instead of
rounding. -/
theorem claim7_counterexample : (MakeList_Log 2).getD 1 0 ≠ logSpecVal 2 1 := by
  rw [makeListLog_getD (by norm_num) (by norm_num), logSpecVal_two_one]
  have h := logVal_two_one_ge
  omega

/-- C7 as amended.  For every count N >= 2 and index i < N, the Log
generator's value at i is `floor(V * log(i + 2) / log N)` (float
arithmetic idealized as exact reals; `size_t` truncation of the
nonnegative float is the floor); the final sort pass is the identity since
these values are non-decreasing in i.  (At N = 1 the source divides by
`log 1 = 0`.) -/
theorem claim7_amended_log_formula (count i : Nat) (hc : 2 ≤ count) (hi : i < count) :
    (MakeList_Log count).getD i 0 = logVal count i :=
  makeListLog_getD hc hi

/-- Witness for the amended C7. -/
theorem claim7_witness :
    2 ≤ 2 ∧ 1 < 2 ∧ (MakeList_Log 2).getD 1 0 = logVal 2 1 :=
  ⟨by decide, by decide, claim7_amended_log_formula 2 1 (by decide) (by decide)⟩

/-- C8.  The source's MakeList_Linear has no N = 1 guard: for count = 1 it
computes `float(index) / float(count - 1) = 0.0f / 0.0f = NaN` and stores
`size_t(NaN)`, an undefined value; the embedding flags that run as
`none`. -/
theorem claim8_no_division_guard : MakeList_Linear 1 = none := rfl

end LinearFitSearch
